import Mathlib

/-!
Verification of the AGFS mount router / sandboxed plugin protocol against
its implementation.  Definitions are shallow embeddings of:
  * `agfs-server/examples/hellofs-wasm-cpp/agfs-cpp-sdk/agfs_http.h`
    (guest-side HTTP SDK: request builder, JSON serializer, FFI unpacking),
  * `agfs-server/pkg/plugins/queuefs/sqs_backend.go`
    (SQS-backed queue provider with its URL cache and deleted-queue cache),
  * the example plugins (HelloFS from the WASM FFI README, HttpTestFS from
    the C++ HTTP example).
Components of the repository that are described by the specification but whose
source is not part of the provided tree (the mount router, the capability
gate, the host side of the pointer packing) are modelled from the
specification text; each such definition carries a doc comment starting with
"Modelled from the spec:".
-/

namespace AGFS

/-! ## Guest marshaling ABI: pointer/length packing -/

/-- Modelled from the spec: the host side of the marshaling ABI returns "one
combined 64-bit value that packs a 32-bit memory offset and a 32-bit byte
length"; the host packing routine itself is not under the provided source
tree.  The halves are placed to match the guest-side unpacking in
`Http::request` (`agfs_http.h` lines 215-217): offset in the low 32 bits,
length in the high 32 bits. -/
def packPtrLen (off len : Nat) : Nat :=
  off % 2 ^ 32 + (len % 2 ^ 32) * 2 ^ 32

/-- From `Http::request` (`agfs_http.h` line 216):
`uint32_t response_ptr = result & 0xFFFFFFFF;`. -/
def unpackPtr (result : Nat) : Nat := result % 2 ^ 32

/-- From `Http::request` (`agfs_http.h` line 217):
`uint32_t response_size = (result >> 32) & 0xFFFFFFFF;`. -/
def unpackLen (result : Nat) : Nat := result / 2 ^ 32 % 2 ^ 32

/-- From `Http::request` (`agfs_http.h` lines 210-228), up to (and not
including) the JSON parse of the response: the guest calls the host, unpacks
the combined 64-bit result, treats offset `0` as failure, and otherwise reads
`response_size` bytes at `response_ptr` from its memory.  `mem off len` is
the string read from guest memory. -/
def httpRequestRaw (hostResult : Nat) (mem : Nat → Nat → String) :
    Except String String :=
  let response_ptr := unpackPtr hostResult
  let response_size := unpackLen hostResult
  if response_ptr = 0 then
    Except.error "HTTP request failed"
  else
    Except.ok (mem response_ptr response_size)

/-! ## Guest HTTP SDK: request builder and serializer (`agfs_http.h`) -/

/-- Ordered-map insertion, the semantics of `std::map::operator[]` assignment
used by `HttpRequest::add_header` (`agfs_http.h` line 62): replaces the value
when the key is present, otherwise inserts keeping keys sorted. -/
def mapInsert (k v : String) : List (String × String) → List (String × String)
  | [] => [(k, v)]
  | (k', v') :: rest =>
    if k = k' then (k, v) :: rest
    else if k < k' then (k, v) :: (k', v') :: rest
    else (k', v') :: mapInsert k v rest

/-- From `agfs_http.h` lines 18-24: the guest HTTP request builder.  `body`
is a byte vector (`std::vector<uint8_t>`), `timeout` defaults to 30 seconds. -/
structure HttpRequest where
  method : String := "GET"
  url : String := ""
  headers : List (String × String) := []
  body : List Nat := []
  timeout : Int := 30

namespace HttpRequest

/-- From `agfs_http.h` lines 28-33: `HttpRequest::get`. -/
def get (url : String) : HttpRequest := { method := "GET", url := url }

/-- From `agfs_http.h` lines 35-40: `HttpRequest::post`. -/
def post (url : String) : HttpRequest := { method := "POST", url := url }

/-- From `agfs_http.h` lines 42-47: `HttpRequest::put`. -/
def put (url : String) : HttpRequest := { method := "PUT", url := url }

/-- From `agfs_http.h` lines 49-54: `HttpRequest::del`. -/
def del (url : String) : HttpRequest := { method := "DELETE", url := url }

/-- From `agfs_http.h` lines 61-64: `HttpRequest::add_header`. -/
def add_header (r : HttpRequest) (key value : String) : HttpRequest :=
  { r with headers := mapInsert key value r.headers }

/-- From `agfs_http.h` lines 66-69: `HttpRequest::set_body`. -/
def set_body (r : HttpRequest) (data : List Nat) : HttpRequest :=
  { r with body := data }

/-- From `agfs_http.h` lines 76-79: `HttpRequest::set_timeout`. -/
def set_timeout (r : HttpRequest) (seconds : Int) : HttpRequest :=
  { r with timeout := seconds }

end HttpRequest

/-- Comma-joining with a leading-`first` flag, the loop shape used in
`HttpRequest::to_json` for headers and body elements. -/
def joinComma : List String → String
  | [] => ""
  | [x] => x
  | x :: y :: rest => x ++ "," ++ joinComma (y :: rest)

/-- One header entry as serialized by `HttpRequest::to_json`
(`agfs_http.h` line 90). -/
def headerItemJson (kv : String × String) : String :=
  "\"" ++ kv.1 ++ "\":\"" ++ kv.2 ++ "\""

/-- From `agfs_http.h` lines 82-103: `HttpRequest::to_json`, the guest SDK's
request serializer.  The serialized keys, in emission order, are `method`,
`url`, `headers`, `body`, `timeout`. -/
def to_json (r : HttpRequest) : String :=
  "\x7b" ++ "\"method\":\"" ++ r.method ++ "\"," ++
  "\"url\":\"" ++ r.url ++ "\"," ++
  "\"headers\":\x7b" ++ joinComma (r.headers.map headerItemJson) ++ "\x7d," ++
  "\"body\":[" ++ joinComma (r.body.map (fun b => toString b)) ++ "]," ++
  "\"timeout\":" ++ toString r.timeout ++ "\x7d"

/-- The top-level field list of `HttpRequest::to_json`, as (key, rendered
value) pairs; `renderObj` of this list is proved equal to `to_json`. -/
def to_jsonFields (r : HttpRequest) : List (String × String) :=
  [("method", "\"" ++ r.method ++ "\""),
   ("url", "\"" ++ r.url ++ "\""),
   ("headers", "\x7b" ++ joinComma (r.headers.map headerItemJson) ++ "\x7d"),
   ("body", "[" ++ joinComma (r.body.map (fun b => toString b)) ++ "]"),
   ("timeout", toString r.timeout)]

/-- Renders a (key, value) field list as a JSON object. -/
def renderObj (fields : List (String × String)) : String :=
  "\x7b" ++ joinComma (fields.map (fun kv => "\"" ++ kv.1 ++ "\":" ++ kv.2)) ++ "\x7d"

/-- Modelled from the spec: the field set the specification claims for the
host-HTTP request envelope (`{method, path, offset, size, headers, body,
timeoutSeconds}`), kept separate for comparison with the serializer's
actual field set. -/
def specEnvelopeKeys : List String :=
  ["method", "path", "offset", "size", "headers", "body", "timeoutSeconds"]

/-- The field names actually emitted by `HttpRequest::to_json`. -/
def actualEnvelopeKeys : List String :=
  ["method", "url", "headers", "body", "timeout"]

/-! ## Error taxonomy and the example plugins -/

/-- Guest-SDK error kinds (`agfs::Error`), restricted to the constructors the
example plugins use. -/
inductive AgfsErr where
  | notFound
  | permissionDenied
  | other (msg : String)
deriving DecidableEq

/-- Guest-SDK file metadata (`agfs::FileInfo`). -/
structure FileInfo where
  name : String
  size : Nat
  mode : Nat
  isDir : Bool
deriving DecidableEq

/-- `FileInfo::file(name, size, mode)`. -/
def FileInfo.file (name : String) (size mode : Nat) : FileInfo :=
  ⟨name, size, mode, false⟩

/-- `FileInfo::dir(name, mode)`. -/
def FileInfo.dir (name : String) (mode : Nat) : FileInfo :=
  ⟨name, 0, mode, true⟩

namespace HelloFS

/-- From the WASM FFI README's `HelloFS` example, `read` (the `match` on the
path): returns the full greeting for `/hello.txt` regardless of `offset` and
`size` (both are ignored by the source), `NotFound` otherwise. -/
def read (path : String) (_offset _size : Int) : Except AgfsErr String :=
  if path = "/hello.txt" then Except.ok "Hello, World!\n"
  else Except.error AgfsErr.notFound

/-- From the WASM FFI README's `HelloFS` example, `stat`. -/
def stat (path : String) : Except AgfsErr FileInfo :=
  if path = "/" then Except.ok (FileInfo.dir "" 0o755)
  else if path = "/hello.txt" then Except.ok (FileInfo.file "hello.txt" 14 0o644)
  else Except.error AgfsErr.notFound

end HelloFS

/-- From `agfs_http.h` lines 107-124: the guest-side HTTP response. -/
structure CppHttpResponse where
  status_code : Int := 0
  headers : List (String × String) := []
  body : List Nat := []
  error : String := ""

/-- From `agfs_http.h` lines 114-116: `HttpResponse::is_success`. -/
def CppHttpResponse.is_success (r : CppHttpResponse) : Bool :=
  200 ≤ r.status_code && r.status_code < 300

namespace HttpTestFS

/-- From the C++ HTTP example plugin (`HttpTestFS::read`): `/test_get` issues
`Http::get("https://example.com")`, `/test_json` issues a request with two
custom headers; the body of a successful response is returned whole, and
`offset`/`size` are ignored by the source.  The host `Http::request` boundary
is abstracted as the oracle `request`. -/
def read (request : HttpRequest → Except AgfsErr CppHttpResponse)
    (path : String) (_offset _size : Int) : Except AgfsErr (List Nat) :=
  if path = "/test_get" then
    match request (HttpRequest.get "https://example.com") with
    | Except.error e => Except.error e
    | Except.ok response =>
      if response.is_success then Except.ok response.body
      else Except.error (AgfsErr.other ("HTTP error: " ++ toString response.status_code))
  else if path = "/test_json" then
    match request (((HttpRequest.get "https://api.github.com/users/github").add_header
        "User-Agent" "AGFS-WASM-Plugin").add_header "Accept" "application/json") with
    | Except.error e => Except.error e
    | Except.ok response =>
      if response.is_success then Except.ok response.body
      else Except.error (AgfsErr.other ("HTTP error: " ++ toString response.status_code))
  else Except.error AgfsErr.notFound

end HttpTestFS

/-! ## Mount router and capability gate

The mount router and the plugin host's capability gate are part of this
repository but their source is not under the provided tree; they are
modelled from the specification (§4.1, §4.4). -/

/-- Modelled from the spec: the generic filesystem error taxonomy (§7),
restricted to the kinds the router and gate claims mention. -/
inductive FsErr where
  | notFound
  | alreadyExists
  | permissionDenied
  | timeout
  | internal
deriving DecidableEq

/-- Splits a character list into `/`-separated path segments, dropping empty
segments; auxiliary accumulator holds the current segment reversed. -/
def segsAux : List Char → List Char → List String
  | [], acc => if acc = [] then [] else [String.mk acc.reverse]
  | c :: cs, acc =>
    if c = '/' then
      (if acc = [] then segsAux cs [] else String.mk acc.reverse :: segsAux cs [])
    else segsAux cs (c :: acc)

/-- The list of path segments of a path string (e.g. `/a/b/c` to
`[a, b, c]`). -/
def segsOf (p : String) : List String := segsAux p.data []

/-- Whether the first segment list is a leading segment run of the second. -/
def segsLead : List String → List String → Bool
  | [], _ => true
  | _ :: _, [] => false
  | a :: as, b :: bs => a = b && segsLead as bs

/-- Modelled from the spec: a mount table entry, a path-prefix-to-provider
association (`MountEntry`, §3); the provider handle is abstracted to an
identifier. -/
structure MountEntry where
  pfx : String
  pid : Nat
deriving DecidableEq

/-- Modelled from the spec: a mount matches a path when its mounted path is a
prefix of the path "on path segments, not substrings" (§4.1). -/
def mountMatches (path : String) (e : MountEntry) : Bool :=
  segsLead (segsOf e.pfx) (segsOf path)

/-- Joins segments back into an absolute path. -/
def joinSegs : List String → String
  | [] => ""
  | s :: rest => "/" ++ s ++ joinSegs rest

/-- The path with the mounted prefix stripped (the provider-relative path). -/
def relPath (e : MountEntry) (path : String) : String :=
  match (segsOf path).drop (segsOf e.pfx).length with
  | [] => "/"
  | rest => joinSegs rest

/-- Keeps the better of a candidate mount and a previously selected one:
the candidate wins when it matches and has strictly more segments. -/
def betterOf (e : MountEntry) (path : String) : Option MountEntry → Option MountEntry
  | none => if mountMatches path e then some e else none
  | some b =>
    if mountMatches path e && decide ((segsOf b.pfx).length < (segsOf e.pfx).length)
    then some e else some b

/-- Modelled from the spec: the entry selected by the router — the mount
whose prefix is the longest segment-prefix of the path (§4.1 `Resolve`). -/
def bestMount (path : String) : List MountEntry → Option MountEntry
  | [] => none
  | e :: rest => betterOf e path (bestMount path rest)

/-- Modelled from the spec: `Resolve(path) -> (ProviderHandle, relativePath)`
(§4.1); fails with `NotFound` when no mount prefix matches. -/
def Resolve (table : List MountEntry) (path : String) : Except FsErr (Nat × String) :=
  match bestMount path table with
  | none => Except.error FsErr.notFound
  | some e => Except.ok (e.pid, relPath e path)

/-- Modelled from the spec: `Mount(prefix, providerSpec, config) -> MountId`
(§4.1) — fails with `AlreadyExists` if the prefix is already mounted exactly,
otherwise registers the new entry; the table after the call is returned
alongside the result. -/
def Mount (table : List MountEntry) (pfx : String) (pid : Nat) :
    Except FsErr Unit × List MountEntry :=
  if table.any (fun e => e.pfx = pfx) then (Except.error FsErr.alreadyExists, table)
  else (Except.ok (), table ++ [⟨pfx, pid⟩])

/-- Modelled from the spec: the named host services a plugin instance may be
granted (`CapabilitySet`, §3). -/
inductive Capability where
  | hostFs
  | hostHttp
deriving DecidableEq

/-- Modelled from the spec: a plugin instance carries its immutable
capability set (§3 `PluginInstance`). -/
structure PluginInstance where
  caps : List Capability

/-- Modelled from the spec: the Capability Gate (§4.4) — a host-provided
service entry point checks the instance's capability set before any real
I/O; an ungranted call fails with `PermissionDenied` and the underlying call
is never attempted.  `io` is the real filesystem/network effect; the second
component is the trace of I/O requests actually attempted. -/
def gateInvoke (inst : PluginInstance) (svc : Capability) (req : String)
    (io : String → String) : Except FsErr String × List String :=
  if svc ∈ inst.caps then (Except.ok (io req), [req])
  else (Except.error FsErr.permissionDenied, [])

/-- Modelled from the spec: a whole sequence of invocations against one
instance; the gate check runs on every invocation, not only at mount time
(§4.4).  Returns the per-call results and the combined real-I/O trace. -/
def gateRun (inst : PluginInstance) (io : String → String) :
    List (Capability × String) → List (Except FsErr String) × List String
  | [] => ([], [])
  | (svc, req) :: rest =>
    let r := gateInvoke inst svc req io
    let rs := gateRun inst io rest
    (r.1 :: rs.1, r.2 ++ rs.2)

/-! ## The SQS queue backend (`pkg/plugins/queuefs/sqs_backend.go`)

The AWS SQS service itself is external; it is modelled as a passive store
`SQSRemote` mapping queue names to their visible messages, with queue URLs
derived from names by `urlOf`.  Client calls thread the remote store. -/

namespace Queuefs

/-- From `sqs_backend.go` line 28: `sqsDefaultMaxReceive = int32(1)`. -/
def sqsDefaultMaxReceive : Int := 1

/-- From `sqs_backend.go` line 30: `sqsDeletedQueueTTL = 2 * time.Minute`,
in seconds. -/
def sqsDeletedQueueTTL : Nat := 120

/-- The queuefs message record (fields used by the SQS backend). -/
structure QueueMessage where
  ID : String := ""
  Data : String := ""
  Timestamp : Nat := 0
deriving DecidableEq

/-- Go error values produced by the backend: the typed
`QueueDoesNotExist` condition, the argument-validation errors, and
`fmt.Errorf("...: %w", err)` wrapping. -/
inductive QErr where
  | doesNotExist
  | emptyName
  | emptyURL
  | nested (q : String)
  | notInitialized
  | msg (s : String)
  | wrap (s : String) (e : QErr)
deriving DecidableEq

/-- From `sqs_backend.go` lines 759-772: `isQueueDoesNotExistError`, which
matches through error wrapping (`errors.As`). -/
def isQueueDoesNotExistError : QErr → Bool
  | QErr.doesNotExist => true
  | QErr.wrap _ e => isQueueDoesNotExistError e
  | _ => false

/-- The external SQS service state: existing queues with their messages. -/
structure SQSRemote where
  queues : List (String × List QueueMessage)

/-- The URL the modelled SQS service assigns to a queue name. -/
def urlOf (q : String) : String := "https://sqs.example/" ++ q

/-- First-match association-list lookup (Go map read). -/
def lookupA {α : Type} : List (String × α) → String → Option α
  | [], _ => none
  | (k, v) :: rest, q => if k = q then some v else lookupA rest q

/-- Association-list key removal (Go map `delete`). -/
def removeA {α : Type} : List (String × α) → String → List (String × α)
  | [], _ => []
  | (k, v) :: rest, q =>
    if k = q then removeA rest q else (k, v) :: removeA rest q

/-- Association-list insert-or-replace (Go map assignment). -/
def insertA {α : Type} (l : List (String × α)) (k : String) (v : α) :
    List (String × α) :=
  removeA l k ++ [(k, v)]

/-- Whether the first string leads the second (`strings.HasPrefix`). -/
def charsLead : List Char → List Char → Bool
  | [], _ => true
  | _ :: _, [] => false
  | a :: as, b :: bs => a = b && charsLead as bs

/-- `strings.HasPrefix(s, pre)` on the modelled strings. -/
def strLead (pre s : String) : Bool := charsLead pre.data s.data

/-- Sorted insert for `sort.Strings` (ascending). -/
def sIns (x : String) : List String → List String
  | [] => [x]
  | y :: ys => if x < y then x :: y :: ys else y :: sIns x ys

/-- Insertion sort modelling `sort.Strings`. -/
def sSort : List String → List String
  | [] => []
  | x :: xs => sIns x (sSort xs)

/-- The queue the modelled service finds under a URL. -/
def findByURL (remote : SQSRemote) (url : String) :
    Option (String × List QueueMessage) :=
  remote.queues.find? (fun kv => urlOf kv.1 = url)

namespace SQSClient

/-- From `sqs_backend.go` lines 166-184: `SQSClient.GetQueueURL` — empty
names are rejected; a missing queue surfaces the service's
`QueueDoesNotExist`. -/
def GetQueueURL (remote : SQSRemote) (queueName : String) : Except QErr String :=
  if queueName = "" then Except.error QErr.emptyName
  else if (lookupA remote.queues queueName).isSome then Except.ok (urlOf queueName)
  else Except.error QErr.doesNotExist

/-- From `sqs_backend.go` lines 136-148: `SQSClient.DeleteQueue` by URL. -/
def DeleteQueue (remote : SQSRemote) (queueURL : String) : Except QErr SQSRemote :=
  if queueURL = "" then Except.error QErr.emptyURL
  else if (findByURL remote queueURL).isSome then
    Except.ok ⟨remote.queues.filter (fun kv => ¬ urlOf kv.1 = queueURL)⟩
  else Except.error QErr.doesNotExist

/-- From `sqs_backend.go` lines 151-163: `SQSClient.PurgeQueue`. -/
def PurgeQueue (remote : SQSRemote) (queueURL : String) : Except QErr SQSRemote :=
  if queueURL = "" then Except.error QErr.emptyURL
  else
    match findByURL remote queueURL with
    | none => Except.error QErr.doesNotExist
    | some (n, _) =>
      Except.ok ⟨remote.queues.map (fun kv => if kv.1 = n then (kv.1, []) else kv)⟩

/-- From `sqs_backend.go` lines 221-250:
`SQSClient.ApproximateNumberOfMessages`. -/
def ApproximateNumberOfMessages (remote : SQSRemote) (queueURL : String) :
    Except QErr Nat :=
  if queueURL = "" then Except.error QErr.emptyURL
  else
    match findByURL remote queueURL with
    | none => Except.error QErr.doesNotExist
    | some (_, msgs) => Except.ok msgs.length

/-- From `sqs_backend.go` lines 298-303: the clamp applied to `maxMessages`
inside `SQSClient.ReceiveMessages` before it is sent as
`MaxNumberOfMessages` (SQS allows at most 10 per receive). -/
def receiveClamp (maxMessages : Int) : Int :=
  if maxMessages < 1 then 1
  else if maxMessages > 10 then 10
  else maxMessages

/-- From `sqs_backend.go` lines 291-359: `SQSClient.ReceiveMessages` — the
clamped count is requested; with `autoDelete` the received messages are
deleted before returning (dequeue behavior). -/
def ReceiveMessages (remote : SQSRemote) (queueURL : String)
    (maxMessages : Int) (autoDelete : Bool) :
    Except QErr (List QueueMessage × SQSRemote) :=
  if queueURL = "" then Except.error QErr.emptyURL
  else
    let m := receiveClamp maxMessages
    match findByURL remote queueURL with
    | none => Except.error (QErr.wrap "receive message failed" QErr.doesNotExist)
    | some (n, msgs) =>
      let received := msgs.take m.toNat
      if autoDelete then
        Except.ok (received, ⟨remote.queues.map
          (fun kv => if kv.1 = n then (kv.1, kv.2.drop received.length) else kv)⟩)
      else Except.ok (received, remote)

/-- From `sqs_backend.go` lines 187-218: `SQSClient.ListQueues` — lists the
queue names with the given name prefix, sorted (URL-to-name conversion by
`queueNameFromURL` is collapsed, the modelled remote being keyed by name). -/
def ListQueues (remote : SQSRemote) (pre : String) : List String :=
  sSort ((remote.queues.map Prod.fst).filter (fun n => strLead pre n))

end SQSClient

/-- From `sqs_backend.go` lines 377-384: the backend's mutable state — the
queue-URL cache and the recently-deleted negative cache mapping names to
their expiry instants; `hasClient` models `b.sqs != nil`. -/
structure SQSBackendState where
  hasClient : Bool := false
  cache : List (String × String) := []
  deleted : List (String × Nat) := []

namespace SQSBackend

/-- The remote branch of `SQSBackend.getQueueURL` (`sqs_backend.go` lines
439-456): fetch (or ensure) the URL remotely, then record it in the cache
and clear the name from the deleted set. -/
def getQueueURLRemote (st : SQSBackendState) (remote : SQSRemote)
    (queueName : String) :
    Except QErr (String × SQSBackendState × SQSRemote) :=
  match SQSClient.GetQueueURL remote queueName with
  | Except.error e => Except.error e
  | Except.ok url =>
    Except.ok (url, { st with cache := insertA st.cache queueName url,
                              deleted := removeA st.deleted queueName }, remote)

/-- From `sqs_backend.go` lines 424-457: `SQSBackend.getQueueURL` with
`createIfMissing=false` (the branch all the verified operations use) —
validates the name, consults the URL cache (a cached empty URL is ignored),
and otherwise resolves remotely. -/
def getQueueURL (st : SQSBackendState) (remote : SQSRemote)
    (queueName : String) :
    Except QErr (String × SQSBackendState × SQSRemote) :=
  if queueName = "" then Except.error QErr.emptyName
  else if queueName.data.contains '/' then Except.error (QErr.nested queueName)
  else
    match lookupA st.cache queueName with
    | some u =>
      if u = "" then getQueueURLRemote st remote queueName
      else Except.ok (u, st, remote)
    | none => getQueueURLRemote st remote queueName

/-- From `sqs_backend.go` lines 482-506: `SQSBackend.Dequeue` — a queue that
does not exist yields an empty message, `ok=false` and no error. -/
def Dequeue (st : SQSBackendState) (remote : SQSRemote) (queueName : String) :
    Except QErr (QueueMessage × Bool) × SQSBackendState × SQSRemote :=
  if st.hasClient = false then (Except.error QErr.notInitialized, st, remote)
  else
    match getQueueURL st remote queueName with
    | Except.error e =>
      if isQueueDoesNotExistError e then (Except.ok ({}, false), st, remote)
      else (Except.error (QErr.wrap "dequeue get queue url failed" e), st, remote)
    | Except.ok (url, st1, remote1) =>
      match SQSClient.ReceiveMessages remote1 url sqsDefaultMaxReceive true with
      | Except.error e => (Except.error e, st1, remote1)
      | Except.ok ([], remote2) => (Except.ok ({}, false), st1, remote2)
      | Except.ok (m :: _, remote2) => (Except.ok (m, true), st1, remote2)

/-- From `sqs_backend.go` lines 509-533: `SQSBackend.Peek` (receive without
deletion). -/
def Peek (st : SQSBackendState) (remote : SQSRemote) (queueName : String) :
    Except QErr (QueueMessage × Bool) × SQSBackendState × SQSRemote :=
  if st.hasClient = false then (Except.error QErr.notInitialized, st, remote)
  else
    match getQueueURL st remote queueName with
    | Except.error e =>
      if isQueueDoesNotExistError e then (Except.ok ({}, false), st, remote)
      else (Except.error (QErr.wrap "peek get queue url failed" e), st, remote)
    | Except.ok (url, st1, remote1) =>
      match SQSClient.ReceiveMessages remote1 url sqsDefaultMaxReceive false with
      | Except.error e => (Except.error e, st1, remote1)
      | Except.ok ([], remote2) => (Except.ok ({}, false), st1, remote2)
      | Except.ok (m :: _, remote2) => (Except.ok (m, true), st1, remote2)

/-- From `sqs_backend.go` lines 536-553: `SQSBackend.Size` — a queue that
does not exist has size 0, with no error. -/
def Size (st : SQSBackendState) (remote : SQSRemote) (queueName : String) :
    Except QErr Nat × SQSBackendState × SQSRemote :=
  if st.hasClient = false then (Except.error QErr.notInitialized, st, remote)
  else
    match getQueueURL st remote queueName with
    | Except.error e =>
      if isQueueDoesNotExistError e then (Except.ok 0, st, remote)
      else (Except.error (QErr.wrap "size get queue url failed" e), st, remote)
    | Except.ok (url, st1, remote1) =>
      match SQSClient.ApproximateNumberOfMessages remote1 url with
      | Except.error e => (Except.error e, st1, remote1)
      | Except.ok n => (Except.ok n, st1, remote1)

/-- From `sqs_backend.go` lines 556-572: `SQSBackend.Clear` — clearing a
queue that does not exist is a no-op, with no error. -/
def Clear (st : SQSBackendState) (remote : SQSRemote) (queueName : String) :
    Except QErr Unit × SQSBackendState × SQSRemote :=
  if st.hasClient = false then (Except.error QErr.notInitialized, st, remote)
  else
    match getQueueURL st remote queueName with
    | Except.error e =>
      if isQueueDoesNotExistError e then (Except.ok (), st, remote)
      else (Except.error (QErr.wrap "clear get queue url failed" e), st, remote)
    | Except.ok (url, st1, remote1) =>
      match SQSClient.PurgeQueue remote1 url with
      | Except.error e => (Except.error e, st1, remote1)
      | Except.ok remote2 => (Except.ok (), st1, remote2)

/-- Marks a queue deleted after removal (`sqs_backend.go` lines 668-680):
drop its URL-cache entry and record `now + sqsDeletedQueueTTL` in the
deleted set. -/
def markDeleted (st : SQSBackendState) (now : Nat) (queueName : String) :
    SQSBackendState :=
  { st with cache := removeA st.cache queueName,
            deleted := insertA st.deleted queueName (now + sqsDeletedQueueTTL) }

/-- From `sqs_backend.go` lines 658-682: `SQSBackend.removeOneQueue` — a
queue that does not exist is a no-op; otherwise the queue is deleted
remotely and marked in the negative cache (also when the remote delete
itself reports the queue already gone). -/
def removeOneQueue (st : SQSBackendState) (remote : SQSRemote) (now : Nat)
    (queueName : String) : Except QErr Unit × SQSBackendState × SQSRemote :=
  match getQueueURL st remote queueName with
  | Except.error e =>
    if isQueueDoesNotExistError e then (Except.ok (), st, remote)
    else (Except.error e, st, remote)
  | Except.ok (url, st1, remote1) =>
    match SQSClient.DeleteQueue remote1 url with
    | Except.error e =>
      if isQueueDoesNotExistError e then
        (Except.ok (), markDeleted st1 now queueName, remote1)
      else (Except.error e, st1, remote1)
    | Except.ok remote2 => (Except.ok (), markDeleted st1 now queueName, remote2)

/-- Removal of every queue when `RemoveQueue("")` is called
(`sqs_backend.go` lines 640-651); individual failures are only logged. -/
def removeAllAux (now : Nat) :
    List String → SQSBackendState × SQSRemote → SQSBackendState × SQSRemote
  | [], sr => sr
  | q :: rest, (st, remote) =>
    let r := removeOneQueue st remote now q
    removeAllAux now rest (r.2.1, r.2.2)

/-- From `sqs_backend.go` lines 632-656: `SQSBackend.RemoveQueue`. -/
def RemoveQueue (st : SQSBackendState) (remote : SQSRemote) (now : Nat)
    (queueName : String) : Except QErr Unit × SQSBackendState × SQSRemote :=
  if st.hasClient = false then (Except.error QErr.notInitialized, st, remote)
  else if queueName = "" then
    let sr := removeAllAux now (SQSClient.ListQueues remote "") (st, remote)
    (Except.ok (), sr.1, sr.2)
  else if queueName.data.contains '/' then
    (Except.error (QErr.nested queueName), st, remote)
  else removeOneQueue st remote now queueName

/-- The cache-augmentation loop of `SQSBackend.ListQueues`
(`sqs_backend.go` lines 607-617): cached names that are not marked deleted,
match the prefix and were not already seen are appended; the accumulator
plays the roles of both `filtered` and `seen`. -/
def addCacheNames (del : List (String × Nat)) (pre : String) :
    List String → List String → List String
  | [], acc => acc
  | q :: rest, acc =>
    if (lookupA del q).isSome then addCacheNames del pre rest acc
    else if (pre = "" || strLead pre q) && !(acc.contains q) then
      addCacheNames del pre rest (acc ++ [q])
    else addCacheNames del pre rest acc

/-- From `sqs_backend.go` lines 575-621: `SQSBackend.ListQueues` — lists
remotely, purges expired entries of the deleted set (`now.After(expireAt)`),
filters out recently deleted names, merges in cached names, sorts. -/
def ListQueues (st : SQSBackendState) (remote : SQSRemote) (now : Nat)
    (pre : String) : Except QErr (List String) × SQSBackendState :=
  if st.hasClient = false then (Except.error QErr.notInitialized, st)
  else
    let queues := SQSClient.ListQueues remote pre
    let del := st.deleted.filter (fun kv => !(decide (now > kv.2)))
    let filtered := queues.filter (fun q => (lookupA del q).isNone)
    let result := addCacheNames del pre (st.cache.map Prod.fst) filtered
    (Except.ok (sSort result), { st with deleted := del })

end SQSBackend

end Queuefs

/-! ## Theorems -/

/-- Merges two adjacent appended strings behind an arbitrary left part;
used to normalize string-literal boundaries when comparing serializations. -/
theorem strMergeL (a b c : String) (h : a ++ b = c) (x : String) :
    x ++ a ++ b = x ++ c := by rw [String.append_assoc, h]

theorem to_json_renders (r : HttpRequest) :
    to_json r = renderObj (to_jsonFields r) := by
  simp only [to_json, renderObj, to_jsonFields, List.map, joinComma]
  simp [← String.append_assoc]
  simp [strMergeL "\"" "," "\"," rfl, strMergeL "\x7d" "," "\x7d," rfl,
    strMergeL "]" "," "]," rfl,
    strMergeL "\"," "\"url\":\"" "\",\"url\":\"" rfl,
    strMergeL "\"," "\"headers\":\x7b" "\",\"headers\":\x7b" rfl,
    strMergeL "\x7d," "\"body\":[" "\x7d,\"body\":[" rfl,
    strMergeL "]," "\"timeout\":" "],\"timeout\":" rfl]

/-! ## Claim theorems for the guest SDK -/

/-- Claim C1: the combined 64-bit cross-boundary return value packs a 32-bit
memory offset in the low half and a 32-bit byte length in the high half;
packing then unpacking any 32-bit offset/length pair is lossless, and a
returned offset of 0 is always interpreted as failure by `Http::request`,
never as a valid zero-length response at address 0. -/
theorem packing_roundtrip_and_zero_offset_failure
    (off len result : Nat) (mem : Nat → Nat → String)
    (hoff : off < 2 ^ 32) (hlen : len < 2 ^ 32)
    (hzero : unpackPtr result = 0) :
    unpackPtr (packPtrLen off len) = off ∧
    unpackLen (packPtrLen off len) = len ∧
    httpRequestRaw result mem = Except.error "HTTP request failed" := by
  refine ⟨?_, ?_, ?_⟩
  · simp only [unpackPtr, packPtrLen]
    omega
  · simp only [unpackLen, packPtrLen]
    omega
  · simp [httpRequestRaw, hzero]

theorem packing_roundtrip_witness :
    unpackPtr (packPtrLen 5 7) = 5 ∧ unpackLen (packPtrLen 5 7) = 7 ∧
    httpRequestRaw (9 * 2 ^ 32) (fun _ _ => "resp") =
      Except.error "HTTP request failed" :=
  packing_roundtrip_and_zero_offset_failure 5 7 (9 * 2 ^ 32) (fun _ _ => "resp")
    (by norm_num) (by norm_num) (by norm_num [unpackPtr])

/-- Claim C5 counterexample: the guest serializer `HttpRequest::to_json`
emits the top-level fields `method`, `url`, `headers`, `body`, `timeout` —
not the spec's claimed `method`, `path`, `offset`, `size`, `headers`,
`body`, `timeoutSeconds`; shown on the concrete request
`HttpRequest::get("https://example.com")`, whose full serialization is also
computed. -/
theorem envelope_fields_counterexample :
    (to_jsonFields (HttpRequest.get "https://example.com")).map Prod.fst =
      actualEnvelopeKeys ∧
    (to_jsonFields (HttpRequest.get "https://example.com")).map Prod.fst ≠
      specEnvelopeKeys ∧
    "path" ∉ (to_jsonFields (HttpRequest.get "https://example.com")).map Prod.fst ∧
    "offset" ∉ (to_jsonFields (HttpRequest.get "https://example.com")).map Prod.fst ∧
    "size" ∉ (to_jsonFields (HttpRequest.get "https://example.com")).map Prod.fst ∧
    "timeoutSeconds" ∉ (to_jsonFields (HttpRequest.get "https://example.com")).map Prod.fst ∧
    to_json (HttpRequest.get "https://example.com") =
      "\x7b\"method\":\"GET\",\"url\":\"https://example.com\",\"headers\":\x7b\x7d,\"body\":[],\"timeout\":30\x7d" :=
  ⟨rfl, by decide, by decide, by decide, by decide, by decide, rfl⟩

/-- Claim C5 (amended): every serialized host-HTTP request envelope produced
by the guest SDK's `HttpRequest::to_json` is a JSON object with exactly the
top-level fields `method`, `url`, `headers` (order-irrelevant string-to-string
map), `body` (byte sequence), and `timeout` (seconds), in that order. -/
theorem to_json_exact_field_names (r : HttpRequest) :
    to_json r = renderObj (to_jsonFields r) ∧
    (to_jsonFields r).map Prod.fst = actualEnvelopeKeys :=
  ⟨to_json_renders r, rfl⟩

/-- Claim C6: a guest HTTP request constructed without an explicit timeout
carries the default of 30 seconds, and a timeout set through the builder's
`set_timeout` replaces that default in the serialized request. -/
theorem default_timeout_and_override (u : String) (r : HttpRequest) (s : Int) :
    ({} : HttpRequest).timeout = 30 ∧
    (HttpRequest.get u).timeout = 30 ∧
    (HttpRequest.post u).timeout = 30 ∧
    (HttpRequest.put u).timeout = 30 ∧
    (HttpRequest.del u).timeout = 30 ∧
    (r.set_timeout s).timeout = s ∧
    ("timeout", toString (30 : Int)) ∈ to_jsonFields (HttpRequest.get u) ∧
    ("timeout", toString s) ∈ to_jsonFields (r.set_timeout s) := by
  refine ⟨rfl, rfl, rfl, rfl, rfl, rfl, ?_, ?_⟩ <;>
    simp [to_jsonFields, HttpRequest.set_timeout, HttpRequest.get]

/-- Claim C7 counterexample: `HelloFS::read` at `/hello.txt` with offset 14
(the end of its 14-byte data) returns the full data, not an empty result —
the example providers ignore `offset` and `size`. -/
theorem read_beyond_eof_counterexample :
    HelloFS.read "/hello.txt" 14 5 = Except.ok "Hello, World!\n" ∧
    "Hello, World!\n" ≠ "" ∧
    "Hello, World!\n".length = 14 ∧
    HelloFS.stat "/hello.txt" = Except.ok (FileInfo.file "hello.txt" 14 0o644) :=
  ⟨rfl, by decide, by decide, rfl⟩

/-- Claim C7 (amended): the in-tree example providers' `read` ignores
`offset` and `size` entirely: a read of a path holding data — including one
whose offset lies at or beyond the end of the data — returns the full data
(never an error, but not an empty result either), and the result is
independent of the offset and size arguments. -/
theorem example_reads_ignore_offset_and_size (off sz off' sz' : Int)
    (p : String) (request : HttpRequest → Except AgfsErr CppHttpResponse) :
    HelloFS.read "/hello.txt" off sz = Except.ok "Hello, World!\n" ∧
    HelloFS.read p off sz = HelloFS.read p off' sz' ∧
    HttpTestFS.read request p off sz = HttpTestFS.read request p off' sz' :=
  ⟨rfl, rfl, rfl⟩

theorem bestMount_none {path : String} {t : List MountEntry}
    (h : bestMount path t = none) : ∀ e ∈ t, mountMatches path e = false := by
  induction t with
  | nil => intro e he; simp at he
  | cons a rest ih =>
    intro e he
    simp only [bestMount] at h
    cases hb : bestMount path rest with
    | none =>
      rw [hb] at h
      simp only [betterOf] at h
      rcases List.mem_cons.mp he with h1 | h1
      · subst h1
        by_cases hm : mountMatches path e = true
        · rw [if_pos hm] at h; exact absurd h (by simp)
        · simpa using hm
      · exact ih hb e h1
    | some b =>
      rw [hb] at h
      simp only [betterOf] at h
      by_cases hc : (mountMatches path a &&
          decide ((segsOf b.pfx).length < (segsOf a.pfx).length)) = true <;>
        simp [hc] at h

theorem bestMount_mem {path : String} {t : List MountEntry} {e : MountEntry}
    (h : bestMount path t = some e) : e ∈ t ∧ mountMatches path e = true := by
  induction t with
  | nil => simp [bestMount] at h
  | cons a rest ih =>
    simp only [bestMount] at h
    cases hb : bestMount path rest with
    | none =>
      rw [hb] at h
      simp only [betterOf] at h
      by_cases hm : mountMatches path a = true
      · rw [if_pos hm] at h
        injection h with h2
        subst h2
        exact ⟨List.mem_cons_self _ _, hm⟩
      · rw [if_neg hm] at h; cases h
    | some b =>
      rw [hb] at h
      simp only [betterOf] at h
      by_cases hc : (mountMatches path a &&
          decide ((segsOf b.pfx).length < (segsOf a.pfx).length)) = true
      · rw [if_pos hc] at h
        injection h with h2
        subst h2
        exact ⟨List.mem_cons_self _ _, ((Bool.and_eq_true _ _).mp hc).1⟩
      · rw [if_neg hc] at h
        injection h with h2
        subst h2
        rcases ih hb with ⟨hmem, hmatch⟩
        exact ⟨List.mem_cons_of_mem a hmem, hmatch⟩

theorem bestMount_longest {path : String} :
    ∀ {t : List MountEntry} {e : MountEntry}, bestMount path t = some e →
    ∀ e' ∈ t, mountMatches path e' = true →
      (segsOf e'.pfx).length ≤ (segsOf e.pfx).length := by
  intro t
  induction t with
  | nil => intro e h; simp [bestMount] at h
  | cons a rest ih =>
    intro e h e' he' hm'
    simp only [bestMount] at h
    cases hb : bestMount path rest with
    | none =>
      rw [hb] at h
      simp only [betterOf] at h
      by_cases hm : mountMatches path a = true
      · rw [if_pos hm] at h
        injection h with h2
        subst h2
        rcases List.mem_cons.mp he' with h1 | h1
        · subst h1; exact le_refl _
        · exact absurd hm' (by simp [bestMount_none hb e' h1])
      · rw [if_neg hm] at h; cases h
    | some b =>
      rw [hb] at h
      simp only [betterOf] at h
      by_cases hc : (mountMatches path a &&
          decide ((segsOf b.pfx).length < (segsOf a.pfx).length)) = true
      · rw [if_pos hc] at h
        injection h with h2
        have hlt := of_decide_eq_true ((Bool.and_eq_true _ _).mp hc).2
        rcases List.mem_cons.mp he' with h1 | h1
        · rw [h1, h2]
        · have := ih hb e' h1 hm'
          rw [← h2]
          omega
      · rw [if_neg hc] at h
        injection h with h2
        subst h2
        rcases List.mem_cons.mp he' with h1 | h1
        · subst h1
          by_cases hm : mountMatches path e' = true
          · have hnlt : ¬ (segsOf b.pfx).length < (segsOf e'.pfx).length := by
              intro hl
              exact hc (by simp [hm, hl])
            omega
          · exact absurd hm' hm
        · exact ih hb e' h1 hm'

/-- Claim C2: `Resolve` returns the provider whose mounted prefix is the
longest segment-prefix of the path (never a substring match), together with
the prefix-stripped relative path; it fails with `NotFound` when no mount
matches; and on the nested mounts `/a`, `/a/b`, path `/a/b/c` resolves to
the `/a/b` provider with relative path `/c` while `/a/x` resolves to the
`/a` provider with relative path `/x`. -/
theorem resolve_longest_segment_match (table : List MountEntry) (path : String)
    (pid : Nat) (rel : String) (h : Resolve table path = Except.ok (pid, rel)) :
    (∃ e ∈ table, e.pid = pid ∧ mountMatches path e = true ∧ rel = relPath e path ∧
      ∀ e' ∈ table, mountMatches path e' = true →
        (segsOf e'.pfx).length ≤ (segsOf e.pfx).length) ∧
    (∀ (t' : List MountEntry) (p' : String),
      (∀ e ∈ t', mountMatches p' e = false) →
      Resolve t' p' = Except.error FsErr.notFound) ∧
    Resolve [⟨"/a", 1⟩, ⟨"/a/b", 2⟩] "/a/b/c" = Except.ok (2, "/c") ∧
    Resolve [⟨"/a", 1⟩, ⟨"/a/b", 2⟩] "/a/x" = Except.ok (1, "/x") ∧
    Resolve [⟨"/a", 1⟩] "/ab" = Except.error FsErr.notFound := by
  refine ⟨?_, ?_, rfl, rfl, rfl⟩
  · unfold Resolve at h
    cases hbm : bestMount path table with
    | none => rw [hbm] at h; cases h
    | some e =>
      rw [hbm] at h
      injection h with h2
      rcases bestMount_mem hbm with ⟨hmem, hmatch⟩
      refine ⟨e, hmem, ?_, hmatch, ?_, bestMount_longest hbm⟩
      · exact congrArg Prod.fst h2
      · exact (congrArg Prod.snd h2).symm
  · intro t' p' hnone
    cases hbm : bestMount p' t' with
    | none => simp [Resolve, hbm]
    | some e =>
      rcases bestMount_mem hbm with ⟨hmem, hmatch⟩
      rw [hnone e hmem] at hmatch
      cases hmatch

theorem resolve_longest_segment_match_witness :
    Resolve [⟨"/a", 1⟩, ⟨"/a/b", 2⟩] "/a/b/c" = Except.ok (2, "/c") :=
  (resolve_longest_segment_match [⟨"/a", 1⟩, ⟨"/a/b", 2⟩] "/a/b/c" 2 "/c" rfl).2.2.1

theorem gateRun_denied (inst : PluginInstance) (io : String → String)
    (svc : Capability) (h : svc ∉ inst.caps) :
    ∀ (calls : List (Capability × String)) (i : Nat) (r : String),
      calls.get? i = some (svc, r) →
      (gateRun inst io calls).1.get? i =
        some (Except.error FsErr.permissionDenied) := by
  intro calls
  induction calls with
  | nil => intro i r h'; simp at h'
  | cons c rest ih =>
    intro i r h'
    obtain ⟨cs, cr⟩ := c
    cases i with
    | zero =>
      simp only [List.get?] at h'
      injection h' with h2
      injection h2 with h3 h4
      subst h3
      simp [gateRun, gateInvoke, h]
    | succ n =>
      simp only [List.get?] at h'
      simp only [gateRun]
      exact ih n r h'

theorem gateRun_trace (inst : PluginInstance) (io : String → String) :
    ∀ calls : List (Capability × String),
      (gateRun inst io calls).2 =
        (calls.filter (fun c => decide (c.1 ∈ inst.caps))).map Prod.snd := by
  intro calls
  induction calls with
  | nil => rfl
  | cons c rest ih =>
    obtain ⟨svc, req⟩ := c
    by_cases hm : svc ∈ inst.caps
    · simp [gateRun, gateInvoke, hm, ih]
    · simp [gateRun, gateInvoke, hm, ih]

/-- Claim C3: a host-service invocation by a plugin instance whose capability
set does not contain the named capability returns `PermissionDenied` with no
underlying I/O attempted; this holds on every invocation of a call sequence
(the real-I/O trace contains exactly the requests of granted calls). -/
theorem ungranted_call_permission_denied_no_io
    (inst : PluginInstance) (svc : Capability) (req : String)
    (io : String → String) (calls : List (Capability × String))
    (h : svc ∉ inst.caps) :
    gateInvoke inst svc req io = (Except.error FsErr.permissionDenied, []) ∧
    (∀ i r, calls.get? i = some (svc, r) →
      (gateRun inst io calls).1.get? i =
        some (Except.error FsErr.permissionDenied)) ∧
    (gateRun inst io calls).2 =
      (calls.filter (fun c => decide (c.1 ∈ inst.caps))).map Prod.snd :=
  ⟨by simp [gateInvoke, h],
   fun i r h' => gateRun_denied inst io svc h calls i r h',
   gateRun_trace inst io calls⟩

theorem ungranted_call_permission_denied_no_io_witness :
    gateInvoke ⟨[Capability.hostFs]⟩ Capability.hostHttp "GET /"
      (fun s => s) = (Except.error FsErr.permissionDenied, []) ∧
    (∀ i r,
      ([(Capability.hostHttp, "a"), (Capability.hostFs, "b")].get? i =
        some (Capability.hostHttp, r)) →
      (gateRun ⟨[Capability.hostFs]⟩ (fun s => s)
        [(Capability.hostHttp, "a"), (Capability.hostFs, "b")]).1.get? i =
        some (Except.error FsErr.permissionDenied)) ∧
    (gateRun ⟨[Capability.hostFs]⟩ (fun s => s)
      [(Capability.hostHttp, "a"), (Capability.hostFs, "b")]).2 =
      ([(Capability.hostHttp, "a"), (Capability.hostFs, "b")].filter
        (fun c => decide (c.1 ∈ ([Capability.hostFs] : List Capability)))).map
          Prod.snd :=
  ungranted_call_permission_denied_no_io ⟨[Capability.hostFs]⟩
    Capability.hostHttp "GET /" (fun s => s)
    [(Capability.hostHttp, "a"), (Capability.hostFs, "b")] (by decide)

/-- Claim C4: mounting a prefix that is already mounted exactly fails with
`AlreadyExists` and leaves the mount table unchanged; in the two-step
scenario, the first `Mount` succeeds and after the failed duplicate the
table still holds exactly the first entry. -/
theorem mount_duplicate_already_exists (table : List MountEntry) (pfx : String)
    (pid pid' : Nat) (h : ∃ e ∈ table, e.pfx = pfx) :
    Mount table pfx pid' = (Except.error FsErr.alreadyExists, table) ∧
    (Mount [] pfx pid).1 = Except.ok () ∧
    (Mount [] pfx pid).2 = [⟨pfx, pid⟩] ∧
    Mount [⟨pfx, pid⟩] pfx pid' =
      (Except.error FsErr.alreadyExists, [⟨pfx, pid⟩]) := by
  have hany : table.any (fun e => e.pfx = pfx) = true := by
    rcases h with ⟨e, he, hpfx⟩
    exact List.any_eq_true.mpr ⟨e, he, by simp [hpfx]⟩
  exact ⟨by simp [Mount, hany], by simp [Mount], by simp [Mount],
    by simp [Mount]⟩

theorem mount_duplicate_already_exists_witness :
    Mount [⟨"/dup", 1⟩] "/dup" 2 =
      (Except.error FsErr.alreadyExists, [⟨"/dup", 1⟩]) ∧
    (Mount [] "/dup" 1).1 = Except.ok () ∧
    (Mount [] "/dup" 1).2 = [⟨"/dup", 1⟩] :=
  have h := mount_duplicate_already_exists [⟨"/dup", 1⟩] "/dup" 1 2
    ⟨⟨"/dup", 1⟩, List.mem_singleton.mpr rfl, rfl⟩
  ⟨h.1, h.2.1, h.2.2.1⟩

namespace Queuefs

theorem lookupA_append {α : Type} (l1 l2 : List (String × α)) (k : String) :
    lookupA (l1 ++ l2) k =
      match lookupA l1 k with
      | some v => some v
      | none => lookupA l2 k := by
  induction l1 with
  | nil => simp [lookupA]
  | cons kv rest ih =>
    obtain ⟨k', v'⟩ := kv
    by_cases h : k' = k
    · simp [lookupA, h]
    · simp [lookupA, h, ih]

theorem lookupA_removeA_self {α : Type} (l : List (String × α)) (q : String) :
    lookupA (removeA l q) q = none := by
  induction l with
  | nil => rfl
  | cons kv rest ih =>
    obtain ⟨k, v⟩ := kv
    by_cases h : k = q
    · simp [removeA, h, ih]
    · simp [removeA, lookupA, h, ih]

theorem lookupA_insertA_self {α : Type} (l : List (String × α)) (k : String)
    (v : α) : lookupA (insertA l k v) k = some v := by
  simp [insertA, lookupA_append, lookupA_removeA_self, lookupA]

theorem lookupA_mem {α : Type} {l : List (String × α)} {k : String} {v : α}
    (h : lookupA l k = some v) : (k, v) ∈ l := by
  induction l with
  | nil => simp [lookupA] at h
  | cons kv rest ih =>
    obtain ⟨k', v'⟩ := kv
    by_cases he : k' = k
    · subst he
      simp [lookupA] at h
      simp [h]
    · simp [lookupA, he] at h
      simp [ih h]

theorem keyMem_lookupA {α : Type} {l : List (String × α)} {k : String}
    (h : k ∈ l.map Prod.fst) : (lookupA l k).isSome = true := by
  induction l with
  | nil => simp at h
  | cons kv rest ih =>
    obtain ⟨k', v'⟩ := kv
    by_cases he : k' = k
    · simp [lookupA, he]
    · simp [lookupA, he]
      rcases List.mem_map.mp h with ⟨x, hx, hfst⟩
      rcases List.mem_cons.mp hx with h1 | h1
      · subst h1; exact absurd hfst he
      · exact ih (List.mem_map.mpr ⟨x, h1, hfst⟩)

theorem lookupA_filter_of_mem {α : Type} {l : List (String × α)} {k : String}
    {v : α} (p : String × α → Bool) (h : lookupA l k = some v)
    (hp : p (k, v) = true) : lookupA (l.filter p) k = some v := by
  induction l with
  | nil => simp [lookupA] at h
  | cons kv rest ih =>
    obtain ⟨k', v'⟩ := kv
    by_cases he : k' = k
    · subst he
      simp [lookupA] at h
      subst h
      simp [List.filter, hp, lookupA]
    · simp [lookupA, he] at h
      cases hpkv : p (k', v') with
      | true => simp [List.filter, hpkv, lookupA, he, ih h]
      | false => simp [List.filter, hpkv, ih h]

theorem lookupA_filter_none {α : Type} {l : List (String × α)} {k : String}
    (p : String × α → Bool) (h : lookupA l k = none) :
    lookupA (l.filter p) k = none := by
  induction l with
  | nil => rfl
  | cons kv rest ih =>
    obtain ⟨k', v'⟩ := kv
    by_cases he : k' = k
    · simp [lookupA, he] at h
    · simp [lookupA, he] at h
      cases hpkv : p (k', v') with
      | true => simp [List.filter, hpkv, lookupA, he, ih h]
      | false => simp [List.filter, hpkv, ih h]

theorem lookupA_insertA_filter {α : Type} (l : List (String × α)) (k : String)
    (v : α) (p : String × α → Bool) :
    lookupA ((insertA l k v).filter p) k =
      if p (k, v) = true then some v else none := by
  have hrm : lookupA ((removeA l k).filter p) k = none :=
    lookupA_filter_none p (lookupA_removeA_self l k)
  simp only [insertA, List.filter_append]
  rw [lookupA_append, hrm]
  cases hp : p (k, v) with
  | true => simp [List.filter, hp, lookupA]
  | false => simp [List.filter, hp, lookupA]

theorem mem_sIns (a x : String) (l : List String) :
    a ∈ sIns x l ↔ a = x ∨ a ∈ l := by
  induction l with
  | nil => simp [sIns]
  | cons y ys ih =>
    by_cases h : x < y
    · simp [sIns, h]
    · simp [sIns, h, ih]
      tauto

theorem mem_sSort (a : String) (l : List String) : a ∈ sSort l ↔ a ∈ l := by
  induction l with
  | nil => simp [sSort]
  | cons x xs ih => simp [sSort, mem_sIns, ih]

theorem addCacheNames_sub (del : List (String × Nat)) (pre : String)
    (names : List String) : ∀ acc a, a ∈ acc →
      a ∈ SQSBackend.addCacheNames del pre names acc := by
  induction names with
  | nil => intro acc a h; simpa [SQSBackend.addCacheNames] using h
  | cons q rest ih =>
    intro acc a h
    simp only [SQSBackend.addCacheNames]
    by_cases h1 : (lookupA del q).isSome = true
    · simp only [h1, if_true]
      exact ih acc a h
    · simp only [h1, if_false]
      by_cases h2 : ((pre = "" || strLead pre q) && !(acc.contains q)) = true
      · simp only [h2, if_true]
        exact ih (acc ++ [q]) a (List.mem_append_left _ h)
      · simp only [h2, if_false]
        exact ih acc a h

theorem addCacheNames_not_mem (del : List (String × Nat)) (pre : String)
    (names : List String) (q : String) (hq : (lookupA del q).isSome = true) :
    ∀ acc, q ∉ acc → q ∉ SQSBackend.addCacheNames del pre names acc := by
  induction names with
  | nil => intro acc h; simpa [SQSBackend.addCacheNames] using h
  | cons n rest ih =>
    intro acc h
    simp only [SQSBackend.addCacheNames]
    by_cases h1 : (lookupA del n).isSome = true
    · simp only [h1, if_true]
      exact ih acc h
    · simp only [h1, if_false]
      by_cases h2 : ((pre = "" || strLead pre n) && !(acc.contains n)) = true
      · simp only [h2, if_true]
        refine ih (acc ++ [n]) ?_
        intro hmem
        rcases List.mem_append.mp hmem with h3 | h3
        · exact h h3
        · have : q = n := List.mem_singleton.mp h3
          subst this
          exact h1 hq
      · simp only [h2, if_false]
        exact ih acc h

theorem urlOf_ne_empty (q : String) : urlOf q ≠ "" := by
  intro h
  have hlen := congrArg String.length h
  rw [urlOf, String.length_append] at hlen
  have h20 : ("https://sqs.example/").length = 20 := rfl
  have h0 : ("" : String).length = 0 := rfl
  rw [h20, h0] at hlen
  omega

theorem findByURL_isSome {remote : SQSRemote} {q : String}
    (hexist : (lookupA remote.queues q).isSome = true) :
    (findByURL remote (urlOf q)).isSome = true := by
  obtain ⟨v, hv⟩ := Option.isSome_iff_exists.mp hexist
  have hmem := lookupA_mem hv
  have : ∃ kv ∈ remote.queues, (decide (urlOf kv.1 = urlOf q)) = true :=
    ⟨(q, v), hmem, by simp⟩
  simp only [findByURL, List.find?_isSome]
  exact this

theorem removeOneQueue_marks (st : SQSBackendState) (remote : SQSRemote)
    (now : Nat) (q : String) (hne : q ≠ "")
    (hsl : q.data.contains '/' = false)
    (hexist : (lookupA remote.queues q).isSome = true) :
    ∃ st1 remote2,
      SQSBackend.removeOneQueue st remote now q =
        (Except.ok (), SQSBackend.markDeleted st1 now q, remote2) ∧
      st1.hasClient = st.hasClient := by
  have hgr : SQSBackend.getQueueURLRemote st remote q =
      Except.ok (urlOf q,
        { st with cache := insertA st.cache q (urlOf q),
                  deleted := removeA st.deleted q }, remote) := by
    simp [SQSBackend.getQueueURLRemote, SQSClient.GetQueueURL, hne, hexist]
  have hdel : SQSClient.DeleteQueue remote (urlOf q) =
      Except.ok ⟨remote.queues.filter (fun kv => ¬ urlOf kv.1 = urlOf q)⟩ := by
    simp [SQSClient.DeleteQueue, urlOf_ne_empty, findByURL_isSome hexist]
  have hslm : '/' ∉ q.data := by simpa using hsl
  cases hc : lookupA st.cache q with
  | none =>
    have hro : SQSBackend.removeOneQueue st remote now q =
        (Except.ok (), SQSBackend.markDeleted
          { st with cache := insertA st.cache q (urlOf q),
                    deleted := removeA st.deleted q } now q,
          ⟨remote.queues.filter (fun kv => ¬ urlOf kv.1 = urlOf q)⟩) := by
      simp [SQSBackend.removeOneQueue, SQSBackend.getQueueURL, hne, hsl, hslm,
        hc, hgr, hdel]
    exact ⟨_, _, hro, rfl⟩
  | some u =>
    by_cases hu : u = ""
    · subst hu
      have hro : SQSBackend.removeOneQueue st remote now q =
          (Except.ok (), SQSBackend.markDeleted
            { st with cache := insertA st.cache q (urlOf q),
                      deleted := removeA st.deleted q } now q,
            ⟨remote.queues.filter (fun kv => ¬ urlOf kv.1 = urlOf q)⟩) := by
        simp [SQSBackend.removeOneQueue, SQSBackend.getQueueURL, hne, hsl,
          hslm, hc, hgr, hdel]
      exact ⟨_, _, hro, rfl⟩
    · cases hfu : (findByURL remote u).isSome with
      | true =>
        have hro : SQSBackend.removeOneQueue st remote now q =
            (Except.ok (), SQSBackend.markDeleted st now q,
              ⟨remote.queues.filter (fun kv => ¬ urlOf kv.1 = u)⟩) := by
          simp [SQSBackend.removeOneQueue, SQSBackend.getQueueURL, hne, hsl,
            hslm, hc, hu, SQSClient.DeleteQueue, hfu]
        exact ⟨_, _, hro, rfl⟩
      | false =>
        have hro : SQSBackend.removeOneQueue st remote now q =
            (Except.ok (), SQSBackend.markDeleted st now q, remote) := by
          simp [SQSBackend.removeOneQueue, SQSBackend.getQueueURL, hne, hsl,
            hslm, hc, hu, SQSClient.DeleteQueue, hfu, isQueueDoesNotExistError]
        exact ⟨_, _, hro, rfl⟩

theorem listQueues_excludes (st' : SQSBackendState) (remote2 : SQSRemote)
    (now2 : Nat) (pre q : String) (exp : Nat)
    (hinit : st'.hasClient = true) (hdel : lookupA st'.deleted q = some exp)
    (hkeep : now2 ≤ exp) :
    ∀ res, (SQSBackend.ListQueues st' remote2 now2 pre).1 = Except.ok res →
      q ∉ res := by
  intro res hres
  simp only [SQSBackend.ListQueues, hinit] at hres
  simp at hres
  have hq : lookupA (st'.deleted.filter fun kv => !(decide (now2 > kv.2))) q =
      some exp := by
    refine lookupA_filter_of_mem _ hdel ?_
    simp
    omega
  intro hmem
  rw [← hres] at hmem
  rw [mem_sSort] at hmem
  have hnacc : q ∉ (SQSClient.ListQueues remote2 pre).filter
      (fun n => (lookupA (st'.deleted.filter fun kv =>
        !(decide (now2 > kv.2))) n).isNone) := by
    intro hmf
    have := (List.mem_filter.mp hmf).2
    rw [hq] at this
    simp at this
  exact addCacheNames_not_mem _ pre _ q (by simp [hq]) _ hnacc hmem

theorem listQueues_includes (st1 : SQSBackendState) (remote2 : SQSRemote)
    (now now2 : Nat) (q : String)
    (hinit : st1.hasClient = true) (hexp : now + sqsDeletedQueueTTL < now2)
    (hq : q ∈ remote2.queues.map Prod.fst) :
    ∀ res, (SQSBackend.ListQueues (SQSBackend.markDeleted st1 now q) remote2
      now2 "").1 = Except.ok res → q ∈ res := by
  intro res hres
  simp only [SQSBackend.ListQueues, SQSBackend.markDeleted, hinit] at hres
  simp at hres
  have hdelnone : lookupA ((insertA st1.deleted q
      (now + sqsDeletedQueueTTL)).filter fun kv =>
        !(decide (now2 > kv.2))) q = none := by
    rw [lookupA_insertA_filter]
    simp
    omega
  rw [← hres, mem_sSort]
  refine addCacheNames_sub _ "" _ _ q (List.mem_filter.mpr ⟨?_, by simp [hdelnone]⟩)
  simp only [SQSClient.ListQueues, mem_sSort]
  refine List.mem_filter.mpr ⟨hq, ?_⟩
  simp [strLead, charsLead]

/-- Claim C8: after `RemoveQueue(q)` completes for an existing queue `q`, `q`
is dropped from the URL cache and recorded in the deleted set with expiry
`now + 2min`; every `ListQueues` before that expiry excludes `q` (even if the
remote service still lists it), and once the expiry has passed the entry is
purged so the name may reappear in listings. -/
theorem sqs_negative_cache (st : SQSBackendState) (remote : SQSRemote)
    (now : Nat) (q : String) (hinit : st.hasClient = true) (hne : q ≠ "")
    (hsl : q.data.contains '/' = false)
    (hexist : q ∈ remote.queues.map Prod.fst) :
    (SQSBackend.RemoveQueue st remote now q).1 = Except.ok () ∧
    lookupA (SQSBackend.RemoveQueue st remote now q).2.1.cache q = none ∧
    lookupA (SQSBackend.RemoveQueue st remote now q).2.1.deleted q =
      some (now + sqsDeletedQueueTTL) ∧
    (∀ (remote2 : SQSRemote) (now2 : Nat) (pre : String)
      (res : List String), now2 ≤ now + sqsDeletedQueueTTL →
      (SQSBackend.ListQueues (SQSBackend.RemoveQueue st remote now q).2.1
        remote2 now2 pre).1 = Except.ok res → q ∉ res) ∧
    (∀ (remote2 : SQSRemote) (now2 : Nat) (res : List String),
      now + sqsDeletedQueueTTL < now2 → q ∈ remote2.queues.map Prod.fst →
      (SQSBackend.ListQueues (SQSBackend.RemoveQueue st remote now q).2.1
        remote2 now2 "").1 = Except.ok res → q ∈ res) := by
  obtain ⟨st1, remote2, hrm, hcl⟩ :=
    removeOneQueue_marks st remote now q hne hsl (keyMem_lookupA hexist)
  have hslm : '/' ∉ q.data := by simpa using hsl
  have hRQ : SQSBackend.RemoveQueue st remote now q =
      (Except.ok (), SQSBackend.markDeleted st1 now q, remote2) := by
    simp [SQSBackend.RemoveQueue, hinit, hne, hsl, hslm, hrm]
  rw [hRQ]
  have hst1 : st1.hasClient = true := hcl.trans hinit
  refine ⟨rfl, ?_, ?_, ?_, ?_⟩
  · exact lookupA_removeA_self _ _
  · exact lookupA_insertA_self _ _ _
  · intro remote3 now2 pre res hle hres
    exact listQueues_excludes _ remote3 now2 pre q (now + sqsDeletedQueueTTL)
      (by simp [SQSBackend.markDeleted, hst1])
      (by simp [SQSBackend.markDeleted, lookupA_insertA_self]) hle res hres
  · intro remote3 now2 res hgt hq3 hres
    exact listQueues_includes st1 remote3 now now2 q hst1 hgt hq3 res hres

theorem sqs_negative_cache_witness :
    (SQSBackend.RemoveQueue ⟨true, [], []⟩ ⟨[("q", [])]⟩ 0 "q").1 =
      Except.ok () ∧
    lookupA (SQSBackend.RemoveQueue ⟨true, [], []⟩
      ⟨[("q", [])]⟩ 0 "q").2.1.deleted "q" = some 120 ∧
    "q" ∉ ([] : List String) ∧ "q" ∈ ["q"] :=
  have h := sqs_negative_cache ⟨true, [], []⟩ ⟨[("q", [])]⟩ 0 "q" rfl
    (by decide) (by decide) (by decide)
  ⟨h.1, by simpa [sqsDeletedQueueTTL] using h.2.2.1,
   h.2.2.2.1 ⟨[("q", [])]⟩ 60 "" [] (by decide) rfl,
   h.2.2.2.2 ⟨[("q", [])]⟩ 121 ["q"] (by decide) (by decide) rfl⟩

/-- Claim C9 counterexample: three queue names that do not exist in the SQS
backend for which the operations do surface errors — the empty name, a name
containing `/`, and a name with a stale URL-cache entry whose queue is gone
remotely. -/
theorem sqs_missing_queue_counterexample :
    (SQSBackend.Dequeue ⟨true, [], []⟩ ⟨[]⟩ "").1 =
      Except.error (QErr.wrap "dequeue get queue url failed" QErr.emptyName) ∧
    (SQSBackend.Size ⟨true, [], []⟩ ⟨[]⟩ "a/b").1 =
      Except.error (QErr.wrap "size get queue url failed" (QErr.nested "a/b")) ∧
    (SQSBackend.Dequeue ⟨true, [("ghost", urlOf "ghost")], []⟩ ⟨[]⟩
      "ghost").1 =
      Except.error (QErr.wrap "receive message failed" QErr.doesNotExist) :=
  ⟨rfl, rfl, rfl⟩

/-- Claim C9 (amended): for every nonempty, slash-free queue name `q` that
does not exist remotely and has no stale URL-cache entry, `Dequeue` and
`Peek` return an empty message with `ok=false` and no error, `Size` returns
0 with no error, and `Clear` returns no error; none of the four operations
surfaces queue absence as an error. -/
theorem sqs_missing_queue_not_an_error (st : SQSBackendState)
    (remote : SQSRemote) (q : String) (hinit : st.hasClient = true)
    (hne : q ≠ "") (hsl : q.data.contains '/' = false)
    (hcache : lookupA st.cache q = none)
    (hremote : lookupA remote.queues q = none) :
    SQSBackend.Dequeue st remote q = (Except.ok ({}, false), st, remote) ∧
    SQSBackend.Peek st remote q = (Except.ok ({}, false), st, remote) ∧
    SQSBackend.Size st remote q = (Except.ok 0, st, remote) ∧
    SQSBackend.Clear st remote q = (Except.ok (), st, remote) := by
  have hslm : '/' ∉ q.data := by simpa using hsl
  have hg : SQSBackend.getQueueURL st remote q =
      Except.error QErr.doesNotExist := by
    simp [SQSBackend.getQueueURL, hne, hslm, hcache,
      SQSBackend.getQueueURLRemote, SQSClient.GetQueueURL, hremote]
  refine ⟨?_, ?_, ?_, ?_⟩ <;>
    simp [SQSBackend.Dequeue, SQSBackend.Peek, SQSBackend.Size,
      SQSBackend.Clear, hinit, hg, isQueueDoesNotExistError]

theorem sqs_missing_queue_not_an_error_witness :
    SQSBackend.Dequeue ⟨true, [("other", urlOf "other")], [("old", 5)]⟩
      ⟨[("other", [])]⟩ "ghost" =
      (Except.ok ({}, false),
        ⟨true, [("other", urlOf "other")], [("old", 5)]⟩, ⟨[("other", [])]⟩) ∧
    SQSBackend.Size ⟨true, [("other", urlOf "other")], [("old", 5)]⟩
      ⟨[("other", [])]⟩ "ghost" =
      (Except.ok 0,
        ⟨true, [("other", urlOf "other")], [("old", 5)]⟩, ⟨[("other", [])]⟩) :=
  have h := sqs_missing_queue_not_an_error
    ⟨true, [("other", urlOf "other")], [("old", 5)]⟩ ⟨[("other", [])]⟩
    "ghost" rfl (by decide) (by decide) (by decide) (by decide)
  ⟨h.1, h.2.2.1⟩

/-- Claim C10: the message count `SQSClient.ReceiveMessages` actually
requests from SQS is the caller's `maxMessages` clamped into `[1, 10]`:
arguments below 1 are raised to 1, arguments above 10 are lowered to 10,
and in-range arguments pass through; consequently a successful receive
never returns more than the clamped count of messages. -/
theorem receive_count_clamped (m : Int) :
    1 ≤ SQSClient.receiveClamp m ∧ SQSClient.receiveClamp m ≤ 10 ∧
    (m < 1 → SQSClient.receiveClamp m = 1) ∧
    (10 < m → SQSClient.receiveClamp m = 10) ∧
    (1 ≤ m → m ≤ 10 → SQSClient.receiveClamp m = m) ∧
    (∀ (remote : SQSRemote) (url : String) (autoDelete : Bool)
      (msgs : List QueueMessage) (remote2 : SQSRemote),
      SQSClient.ReceiveMessages remote url m autoDelete =
        Except.ok (msgs, remote2) →
      msgs.length ≤ (SQSClient.receiveClamp m).toNat) := by
  refine ⟨?_, ?_, fun h => ?_, fun h => ?_, fun h1 h2 => ?_, ?_⟩
  · simp only [SQSClient.receiveClamp]; split_ifs <;> omega
  · simp only [SQSClient.receiveClamp]; split_ifs <;> omega
  · simp [SQSClient.receiveClamp, h]
  · simp only [SQSClient.receiveClamp]; split_ifs <;> omega
  · simp only [SQSClient.receiveClamp]; split_ifs <;> first | rfl | omega
  · intro remote url autoDelete msgs remote2 hrc
    by_cases hu : url = ""
    · simp [SQSClient.ReceiveMessages, hu] at hrc
    · simp only [SQSClient.ReceiveMessages, hu, if_false] at hrc
      cases hf : findByURL remote url with
      | none => rw [hf] at hrc; cases hrc
      | some kv =>
        obtain ⟨n, ms⟩ := kv
        rw [hf] at hrc
        cases hauto : autoDelete with
        | true =>
          rw [hauto] at hrc
          simp only [if_true] at hrc
          injection hrc with h2
          injection h2 with h3 h4
          rw [← h3]
          exact le_trans (List.length_take_le _ _) (le_refl _)
        | false =>
          rw [hauto] at hrc
          simp only [if_false] at hrc
          injection hrc with h2
          injection h2 with h3 h4
          rw [← h3]
          exact List.length_take_le _ _

theorem receive_count_clamped_witness :
    SQSClient.receiveClamp 0 = 1 ∧ SQSClient.receiveClamp 11 = 10 ∧
    SQSClient.receiveClamp 5 = 5 ∧
    ([⟨"m1", "d", 0⟩] : List QueueMessage).length ≤
      (SQSClient.receiveClamp 99).toNat :=
  ⟨(receive_count_clamped 0).2.2.1 (by decide),
   (receive_count_clamped 11).2.2.2.1 (by decide),
   (receive_count_clamped 5).2.2.2.2.1 (by decide) (by decide),
   (receive_count_clamped 99).2.2.2.2.2 ⟨[("q", [⟨"m1", "d", 0⟩])]⟩
     (urlOf "q") false [⟨"m1", "d", 0⟩] ⟨[("q", [⟨"m1", "d", 0⟩])]⟩ rfl⟩

end Queuefs

end AGFS
